import Mathlib

/-!
Verification of the bulk reconciliation engine of
`amazon_kids_content_disabler.js` (click-based variant) and its sibling
script variants.  All definitions are shallow embeddings translated from
the JavaScript source; theorems settle the frozen claims about the spec.
-/

namespace AKCD

/-- The `CONFIG.mode` value: `'disable'` or `'enable'`. -/
inductive Mode where
  | disable : Mode
  | enable : Mode
deriving DecidableEq, Repr

/-- An item as produced by `ItemSource.getItems()`: `itemId` (may be `null`
in the DOM fallback), `title`, `contentType` and the current
enabled/disabled state. -/
structure Item where
  itemId : Option String
  title : String
  contentType : String
  isEnabled : Bool
deriving DecidableEq, Repr

/-- The engine-relevant part of `CONFIG`. -/
structure Config where
  mode : Mode
  contentTypes : Option (List String)
  keywords : Option (List String)
  keywordCaseSensitive : Bool
  clickConcurrency : Nat
  clickDelayMs : Nat
  maxRetries : Nat
  retryBackoffMs : Nat
  dryRun : Bool
deriving DecidableEq, Repr

/-- JavaScript `String.prototype.includes`: substring containment. -/
def strIncludes (s sub : String) : Bool :=
  decide (List.IsInfix sub.toList s.toList)

/-- One keyword test as the source performs it: case-folded unless
`keywordCaseSensitive` is set. -/
def kwOccurs (cfg : Config) (kw title : String) : Bool :=
  if cfg.keywordCaseSensitive then strIncludes title kw
  else strIncludes title.toLower kw.toLower

/-- The keyword block of `Filter.shouldProcess`: when a non-null,
non-empty keyword list is configured, some keyword must occur in the
title. -/
def keywordStep (cfg : Config) (it : Item) : Bool :=
  match cfg.keywords with
  | some kws =>
      if 0 < kws.length then
        if kws.any (fun kw => kwOccurs cfg kw it.title) = false then false else true
      else true
  | none => true

/-- The content-type block of `Filter.shouldProcess`, falling through to
the keyword block. -/
def contentTypeStep (cfg : Config) (it : Item) : Bool :=
  match cfg.contentTypes with
  | some cts =>
      if cts.any (fun ct => ct.toUpper == it.contentType.toUpper) = false then false
      else keywordStep cfg it
  | none => keywordStep cfg it

/-- `Filter.shouldProcess(item)`: mode check, content-type filter,
keyword filter, in the order of the source. -/
def shouldProcess (cfg : Config) (it : Item) : Bool :=
  if cfg.mode = Mode.disable ∧ it.isEnabled = false then false
  else if cfg.mode = Mode.enable ∧ it.isEnabled = true then false
  else contentTypeStep cfg it

/-- The desired `isEnabled` value for a mode: `disable` drives items to
disabled, `enable` to enabled. -/
def desiredEnabled : Mode → Bool
  | Mode.disable => false
  | Mode.enable => true

/-- The item is already in the state the run drives toward. -/
def inDesiredState (cfg : Config) (it : Item) : Prop :=
  it.isEnabled = desiredEnabled cfg.mode

/-- A content-type restriction is configured and the item's category
(case-folded, as the source compares) is not in it. -/
def categoryExcluded (cfg : Config) (it : Item) : Prop :=
  ∃ cts, cfg.contentTypes = some cts ∧
    ∀ ct ∈ cts, ¬ (ct.toUpper = it.contentType.toUpper)

/-- A non-empty include-keyword list is configured and no keyword occurs
in the title. -/
def includeMiss (cfg : Config) (it : Item) : Prop :=
  ∃ kws, cfg.keywords = some kws ∧ kws ≠ [] ∧
    ∀ kw ∈ kws, kwOccurs cfg kw it.title = false

theorem keywordStep_false_iff (cfg : Config) (it : Item) :
    keywordStep cfg it = false ↔ includeMiss cfg it := by
  unfold keywordStep includeMiss
  cases h : cfg.keywords with
  | none => simp
  | some kws =>
      simp only [Option.some.injEq]
      constructor
      · intro hf
        refine ⟨kws, rfl, ?_, ?_⟩
        · intro hnil
          subst hnil
          simp at hf
        · intro kw hkw
          by_contra hocc
          have hkt : kwOccurs cfg kw it.title = true := by
            cases hx : kwOccurs cfg kw it.title
            · exact absurd hx hocc
            · rfl
          have hany : kws.any (fun kw => kwOccurs cfg kw it.title) = true :=
            List.any_eq_true.mpr ⟨kw, hkw, hkt⟩
          rw [hany] at hf
          split at hf
          · simp at hf
          · simp at hf
      · rintro ⟨kws2, hk2, hne, hall⟩
        subst hk2
        have hlen : 0 < kws.length := List.length_pos.mpr hne
        rw [if_pos hlen]
        have hany : kws.any (fun kw => kwOccurs cfg kw it.title) = false :=
          List.any_eq_false.mpr (fun kw hkw => by rw [hall kw hkw]; simp)
        rw [if_pos hany]

theorem contentTypeStep_false_iff (cfg : Config) (it : Item) :
    contentTypeStep cfg it = false ↔
      categoryExcluded cfg it ∨ includeMiss cfg it := by
  cases h : cfg.contentTypes with
  | none =>
      have hstep : contentTypeStep cfg it = keywordStep cfg it := by
        unfold contentTypeStep
        rw [h]
      rw [hstep, keywordStep_false_iff]
      have hce : ¬ categoryExcluded cfg it := by
        rintro ⟨cts2, hcts2, -⟩
        rw [h] at hcts2
        cases hcts2
      simp [hce]
  | some cts =>
      have hstep : contentTypeStep cfg it =
          (if cts.any (fun ct => ct.toUpper == it.contentType.toUpper) = false
           then false else keywordStep cfg it) := by
        unfold contentTypeStep
        rw [h]
      rw [hstep]
      rcases hany : cts.any (fun ct => ct.toUpper == it.contentType.toUpper) with _ | _
      · rw [if_pos rfl]
        constructor
        · intro _
          left
          refine ⟨cts, h, ?_⟩
          intro ct hct hequp
          have : cts.any (fun ct => ct.toUpper == it.contentType.toUpper) = true :=
            List.any_eq_true.mpr ⟨ct, hct, by simp [hequp]⟩
          rw [this] at hany
          cases hany
        · intro _
          rfl
      · rw [if_neg (by simp)]
        rw [keywordStep_false_iff]
        have hce : ¬ categoryExcluded cfg it := by
          rintro ⟨cts2, hcts2, hall⟩
          rw [h] at hcts2
          cases Option.some.inj hcts2
          rcases List.any_eq_true.mp hany with ⟨ct, hct, hequp⟩
          exact hall ct hct (by simpa using hequp)
        simp [hce]

/-- **C2 — Filter correctness.**  `Filter.shouldProcess` returns false
exactly when the item is already in the desired state, or a configured
content-type restriction excludes its category (case-folded, as the source
compares), or a configured include-keyword list has no keyword occurring
in the title.  Two points of the formalisation: the source treats an
empty keywords array like a missing one (the `keywords.length > 0`
guard), so "an include-keyword list exists" means a configured non-empty
list; and the source configuration carries no exclude-keyword list at
all, so the claim's exclude-keyword disjunct is vacuously false over
every configuration of this program and the iff reduces to the three
disjuncts below. -/
theorem shouldProcess_false_iff (cfg : Config) (it : Item) :
    shouldProcess cfg it = false ↔
      inDesiredState cfg it ∨ categoryExcluded cfg it ∨ includeMiss cfg it := by
  unfold shouldProcess
  by_cases h1 : cfg.mode = Mode.disable ∧ it.isEnabled = false
  · rw [if_pos h1]
    have hd : inDesiredState cfg it := by
      simp [inDesiredState, h1.1, h1.2, desiredEnabled]
    simp [hd]
  · rw [if_neg h1]
    by_cases h2 : cfg.mode = Mode.enable ∧ it.isEnabled = true
    · rw [if_pos h2]
      have hd : inDesiredState cfg it := by
        simp [inDesiredState, h2.1, h2.2, desiredEnabled]
      simp [hd]
    · rw [if_neg h2]
      have hd : ¬ inDesiredState cfg it := by
        intro hdes
        unfold inDesiredState at hdes
        cases hm : cfg.mode
        · rw [hm] at hdes
          exact h1 ⟨hm, by simpa [desiredEnabled] using hdes⟩
        · rw [hm] at hdes
          exact h2 ⟨hm, by simpa [desiredEnabled] using hdes⟩
      rw [contentTypeStep_false_iff]
      simp [hd]

/-- The verification poll of `Engine._waitForToggle`, polling the switch
at 50 ms intervals starting 50 ms after the click: `sw k` is the switch's
`checked` value at the k-th poll.  The source resolves `true` at the first
poll showing the expected value and `false` once the elapsed time exceeds
`timeoutMs`.  The fuel argument only bounds the recursion and is chosen
large enough to never run out. -/
def waitGo (sw : Nat → Bool) (expected : Bool) (timeoutMs : Nat) :
    Nat → Nat → Bool
  | _, 0 => false
  | k, fuel + 1 =>
      if sw k = expected then true
      else if timeoutMs < k * 50 then false
      else waitGo sw expected timeoutMs (k + 1) fuel

/-- `Engine._waitForToggle(sw, expectedChecked, timeoutMs)`. -/
def waitForToggle (sw : Nat → Bool) (expected : Bool) (timeoutMs : Nat) : Bool :=
  waitGo sw expected timeoutMs 1 (timeoutMs / 50 + 2)

theorem waitGo_true_iff (sw : Nat → Bool) (expected : Bool) (timeoutMs : Nat) :
    ∀ fuel k, timeoutMs / 50 + 2 ≤ k + fuel → k ≤ timeoutMs / 50 + 1 →
      (waitGo sw expected timeoutMs k fuel = true ↔
        ∃ j, k ≤ j ∧ j ≤ timeoutMs / 50 + 1 ∧ sw j = expected) := by
  intro fuel
  induction fuel with
  | zero =>
      intro k hfuel hk
      omega
  | succ n ih =>
      intro k hfuel hk
      unfold waitGo
      by_cases hsw : sw k = expected
      · rw [if_pos hsw]
        simp only [true_iff]
        exact ⟨k, le_refl k, hk, hsw⟩
      · rw [if_neg hsw]
        by_cases hto : timeoutMs < k * 50
        · rw [if_pos hto]
          have hdivk : timeoutMs / 50 < k := (Nat.div_lt_iff_lt_mul (by omega)).mpr hto
          constructor
          · intro hff
            exact absurd hff (by simp)
          · rintro ⟨j, hkj, hjb, hswj⟩
            have hjk : j = k := by omega
            rw [hjk] at hswj
            exact absurd hswj hsw
        · rw [if_neg hto]
          have hk50 : k * 50 ≤ timeoutMs := Nat.le_of_not_lt hto
          have hkdiv : k ≤ timeoutMs / 50 := Nat.le_div_iff_mul_le (by omega) |>.mpr hk50
          rw [ih (k + 1) (by omega) (by omega)]
          constructor
          · rintro ⟨j, hkj, hjb, hswj⟩
            exact ⟨j, by omega, hjb, hswj⟩
          · rintro ⟨j, hkj, hjb, hswj⟩
            refine ⟨j, ?_, hjb, hswj⟩
            rcases Nat.eq_or_lt_of_le hkj with heq | hlt
            · rw [← heq] at hswj
              exact absurd hswj hsw
            · omega

/-- `waitForToggle` succeeds exactly when some poll within the window
(the last one occurring at the first instant past the timeout) observes
the expected switch state. -/
theorem waitForToggle_true_iff (sw : Nat → Bool) (expected : Bool) (timeoutMs : Nat) :
    waitForToggle sw expected timeoutMs = true ↔
      ∃ j, 1 ≤ j ∧ j ≤ timeoutMs / 50 + 1 ∧ sw j = expected := by
  unfold waitForToggle
  exact waitGo_true_iff sw expected timeoutMs (timeoutMs / 50 + 2) 1 (by omega) (by omega)

/-- The per-item actuation environment seen by `Engine.processBatch`:
either no card element is found for the item, or a card is found, with or
without an `input[role="switch"]` indicator inside it; `sw1`/`sw2` give
the indicator's `checked` value at each verification poll after the first
and the (retry) second click. -/
inductive ClickEnv where
  | noCard : ClickEnv
  | card (hasSwitch : Bool) (sw1 sw2 : Nat → Bool) : ClickEnv

/-- The per-item outcome of one `clickPromises` entry of
`Engine.processBatch`: stats increments plus the number of card clicks
and verification waits performed. -/
structure Delta where
  toggled : Nat
  failed : Nat
  clicks : Nat
  verifies : Nat
deriving DecidableEq, Repr

/-- One entry of `clickPromises` in `Engine.processBatch` (click variant):
no card → failed, card without switch → single unverified click counted
toggled, card with switch → click, verify, on timeout one retry click and
a second verification, failed only if both verifications time out. -/
def clickItem (expected : Bool) : ClickEnv → Delta
  | ClickEnv.noCard => ⟨0, 1, 0, 0⟩
  | ClickEnv.card false _ _ => ⟨1, 0, 1, 0⟩
  | ClickEnv.card true sw1 sw2 =>
      if waitForToggle sw1 expected 3000 = true then ⟨1, 0, 1, 1⟩
      else if waitForToggle sw2 expected 3000 = true then ⟨1, 0, 2, 2⟩
      else ⟨0, 1, 2, 2⟩

/-- **C6 — Verify-then-retry-once.**  For a click-actuated item whose
switch indicator exists, the engine polls the indicator at 50 ms
intervals, succeeding exactly when some poll within the 3000 ms window
(61 polls, the last at the first instant past the timeout) shows the
desired state; on timeout it performs exactly one retry click with a
fresh verification window; `failed` is incremented (by one, with
`toggled` unchanged) only when both verifications time out, and `toggled`
is incremented by one (with `failed` unchanged) when either succeeds. -/
theorem verify_then_retry_once (sw1 sw2 : Nat → Bool) (expected : Bool) :
    (waitForToggle sw1 expected 3000 = true ↔
        ∃ j, 1 ≤ j ∧ j ≤ 61 ∧ sw1 j = expected) ∧
    (clickItem expected (ClickEnv.card true sw1 sw2)).clicks ≤ 2 ∧
    ((clickItem expected (ClickEnv.card true sw1 sw2)).clicks = 2 ↔
        waitForToggle sw1 expected 3000 = false) ∧
    (clickItem expected (ClickEnv.card true sw1 sw2)).toggled
        + (clickItem expected (ClickEnv.card true sw1 sw2)).failed = 1 ∧
    ((clickItem expected (ClickEnv.card true sw1 sw2)).failed = 1 ↔
        (waitForToggle sw1 expected 3000 = false ∧
         waitForToggle sw2 expected 3000 = false)) ∧
    ((clickItem expected (ClickEnv.card true sw1 sw2)).toggled = 1 ↔
        (waitForToggle sw1 expected 3000 = true ∨
         waitForToggle sw2 expected 3000 = true)) := by
  refine ⟨?_, ?_⟩
  · have h := waitForToggle_true_iff sw1 expected 3000
    have h61 : (3000 : Nat) / 50 + 1 = 61 := by norm_num
    rw [h61] at h
    exact h
  · rcases h1 : waitForToggle sw1 expected 3000 with _ | _ <;>
      rcases h2 : waitForToggle sw2 expected 3000 with _ | _ <;>
      simp [clickItem, h1, h2]

/-- The stats counters of the click-variant engine
(`Engine._stats = { toggled: 0, skipped: 0, failed: 0 }`). -/
structure Stats where
  toggled : Nat
  skipped : Nat
  failed : Nat
deriving DecidableEq, Repr

/-- The dedup key used by `Engine.processBatch`:
`item.itemId ?? item.title`. -/
def dedupKey (it : Item) : String :=
  it.itemId.getD it.title

/-- The dedup-and-policy filter at the top of `Engine.processBatch`:
items whose key is not yet in `_processedIds` and which pass
`Filter.shouldProcess`. -/
def survivors (cfg : Config) (processed : List String) (items : List Item) :
    List Item :=
  items.filter (fun it => (!decide (dedupKey it ∈ processed)) && shouldProcess cfg it)

/-- Folding one per-item click outcome into the stats (only `toggled` and
`failed` are touched by the click path). -/
def applyDelta (s : Stats) (d : Delta) : Stats :=
  { toggled := s.toggled + d.toggled, skipped := s.skipped,
    failed := s.failed + d.failed }

/-- The engine-visible run state: `_processedIds`, `_stats`, plus the list
of items whose actuation has been attempted (for stating at-most-once). -/
structure RunSt where
  processed : List String
  stats : Stats
  actuated : List Item
deriving Repr

/-- The switch state a click is verified against:
`expectChecked = (CONFIG.mode === 'enable')`. -/
def expectChecked (cfg : Config) : Bool :=
  decide (cfg.mode = Mode.enable)

/-- `Engine.processBatch(items)` (click variant), one page: filter by
dedup set and policy, return early when nothing survives, mark all
survivors processed upfront, then either count all survivors as skipped
(dry run) or click them, accumulating per-item outcomes.  `env` gives
each item's DOM lookup result (card / switch / indicator behavior). -/
def processPage (cfg : Config) (env : Item → ClickEnv) (st : RunSt)
    (items : List Item) : RunSt :=
  let toProcess := survivors cfg st.processed items
  if toProcess.isEmpty then st
  else
    let processed2 := st.processed ++ toProcess.map dedupKey
    if cfg.dryRun then
      { processed := processed2,
        stats := { st.stats with skipped := st.stats.skipped + toProcess.length },
        actuated := st.actuated }
    else
      { processed := processed2,
        stats := toProcess.foldl
          (fun s it => applyDelta s (clickItem (expectChecked cfg) (env it))) st.stats,
        actuated := st.actuated ++ toProcess }

/-- Repeated `processBatch` calls over successive page reads of one run. -/
def runPages (cfg : Config) (env : Item → ClickEnv) :
    RunSt → List (List Item) → RunSt
  | st, [] => st
  | st, pg :: rest => runPages cfg env (processPage cfg env st pg) rest

/-- The fresh engine state at run start. -/
def initRun : RunSt :=
  ⟨[], ⟨0, 0, 0⟩, []⟩

theorem survivors_sublist (cfg : Config) (processed : List String)
    (items : List Item) : List.Sublist (survivors cfg processed items) items :=
  List.filter_sublist items

theorem mem_survivors (cfg : Config) (processed : List String)
    (items : List Item) (it : Item) (h : it ∈ survivors cfg processed items) :
    dedupKey it ∉ processed ∧ shouldProcess cfg it = true := by
  unfold survivors at h
  rcases List.mem_filter.mp h with ⟨-, hcond⟩
  rw [Bool.and_eq_true] at hcond
  rcases hcond with ⟨hnot, hsp⟩
  refine ⟨?_, hsp⟩
  intro hmem
  rw [Bool.not_eq_eq_eq_not] at hnot
  simp [hmem] at hnot

theorem processPage_processed (cfg : Config) (env : Item → ClickEnv)
    (st : RunSt) (items : List Item) :
    (processPage cfg env st items).processed =
      st.processed ++ (survivors cfg st.processed items).map dedupKey ∨
    ((processPage cfg env st items) = st ∧ survivors cfg st.processed items = []) := by
  unfold processPage
  by_cases he : (survivors cfg st.processed items).isEmpty
  · right
    rw [if_pos he]
    exact ⟨rfl, List.isEmpty_iff.mp he⟩
  · left
    rw [if_neg he]
    by_cases hd : cfg.dryRun
    · rw [if_pos hd]
    · rw [if_neg hd]

theorem processPage_actuated (cfg : Config) (env : Item → ClickEnv)
    (st : RunSt) (items : List Item) :
    (processPage cfg env st items).actuated = st.actuated ∨
    ((processPage cfg env st items).actuated =
        st.actuated ++ survivors cfg st.processed items ∧ cfg.dryRun = false ∧
      (processPage cfg env st items).processed =
        st.processed ++ (survivors cfg st.processed items).map dedupKey) := by
  unfold processPage
  by_cases he : (survivors cfg st.processed items).isEmpty
  · left
    rw [if_pos he]
  · rw [if_neg he]
    by_cases hd : cfg.dryRun
    · left
      rw [if_pos hd]
    · right
      rw [if_neg hd]
      exact ⟨rfl, Bool.eq_false_iff.mpr hd, rfl⟩

theorem processPage_dry (cfg : Config) (env : Item → ClickEnv) (st : RunSt)
    (items : List Item) (h : cfg.dryRun = true) :
    (processPage cfg env st items).actuated = st.actuated ∧
    (processPage cfg env st items).stats.skipped
      = st.stats.skipped + (survivors cfg st.processed items).length ∧
    (processPage cfg env st items).stats.toggled = st.stats.toggled ∧
    (processPage cfg env st items).stats.failed = st.stats.failed := by
  unfold processPage
  by_cases he : (survivors cfg st.processed items).isEmpty
  · rw [if_pos he]
    have hlen : (survivors cfg st.processed items).length = 0 := by
      rw [List.isEmpty_iff.mp he]
      rfl
    simp [hlen]
  · rw [if_neg he, if_pos h]
    simp

theorem runPages_dry (cfg : Config) (env : Item → ClickEnv)
    (h : cfg.dryRun = true) :
    ∀ pages st, (runPages cfg env st pages).actuated = st.actuated ∧
      (runPages cfg env st pages).stats.toggled = st.stats.toggled := by
  intro pages
  induction pages with
  | nil =>
      intro st
      exact ⟨rfl, rfl⟩
  | cons pg rest ih =>
      intro st
      unfold runPages
      rcases ih (processPage cfg env st pg) with ⟨ha, ht⟩
      rcases processPage_dry cfg env st pg h with ⟨ha2, -, ht2, -⟩
      exact ⟨ha.trans ha2, ht.trans ht2⟩

/-- **C3 — Dry-run purity.**  With `dryRun = true`, `processBatch` never
invokes an actuation (the actuated list never grows), every survivor of
the dedup-and-policy filter increments `skipped` by exactly one
(`skipped` grows by the number of survivors), `toggled` is unchanged per
page, and over a whole run from a fresh state no actuation occurs and
`toggled` stays 0. -/
theorem dryrun_purity (cfg : Config) (env : Item → ClickEnv)
    (h : cfg.dryRun = true) :
    (∀ st items,
        (processPage cfg env st items).actuated = st.actuated ∧
        (processPage cfg env st items).stats.skipped
          = st.stats.skipped + (survivors cfg st.processed items).length ∧
        (processPage cfg env st items).stats.toggled = st.stats.toggled) ∧
    ∀ pages, (runPages cfg env initRun pages).actuated = [] ∧
      (runPages cfg env initRun pages).stats.toggled = 0 := by
  constructor
  · intro st items
    rcases processPage_dry cfg env st items h with ⟨ha, hs, ht, -⟩
    exact ⟨ha, hs, ht⟩
  · intro pages
    rcases runPages_dry cfg env h pages initRun with ⟨ha, ht⟩
    exact ⟨ha, ht⟩

/-- Witness for C3 at a concrete dry-run configuration and page list. -/
theorem dryrun_purity_witness :
    (runPages ⟨Mode.disable, none, none, false, 5, 150, 3, 1000, true⟩
        (fun _ => ClickEnv.noCard) initRun
        [[⟨some "id1", "Game", "APP", true⟩]]).actuated = [] ∧
    (runPages ⟨Mode.disable, none, none, false, 5, 150, 3, 1000, true⟩
        (fun _ => ClickEnv.noCard) initRun
        [[⟨some "id1", "Game", "APP", true⟩]]).stats.toggled = 0 :=
  (dryrun_purity ⟨Mode.disable, none, none, false, 5, 150, 3, 1000, true⟩
    (fun _ => ClickEnv.noCard) rfl).2 [[⟨some "id1", "Game", "APP", true⟩]]

theorem shouldProcess_of_desired (cfg : Config) (it : Item)
    (h : it.isEnabled = desiredEnabled cfg.mode) :
    shouldProcess cfg it = false := by
  unfold shouldProcess
  rcases hm : cfg.mode with _ | _
  · rw [hm] at h
    simp only [desiredEnabled] at h
    rw [if_pos ⟨rfl, h⟩]
  · rw [hm] at h
    simp only [desiredEnabled] at h
    rw [if_neg ?hneg, if_pos ⟨rfl, h⟩]
    case hneg =>
      rintro ⟨hmd, -⟩
      cases hmd

theorem survivors_nil_of_desired (cfg : Config) (processed : List String)
    (items : List Item)
    (h : ∀ it ∈ items, it.isEnabled = desiredEnabled cfg.mode) :
    survivors cfg processed items = [] := by
  unfold survivors
  apply List.filter_eq_nil_iff.mpr
  intro it hit hp
  rw [Bool.and_eq_true] at hp
  rcases hp with ⟨-, hsp⟩
  rw [shouldProcess_of_desired cfg it (h it hit)] at hsp
  cases hsp

theorem processPage_of_desired (cfg : Config) (env : Item → ClickEnv)
    (st : RunSt) (items : List Item)
    (h : ∀ it ∈ items, it.isEnabled = desiredEnabled cfg.mode) :
    processPage cfg env st items = st := by
  have hs := survivors_nil_of_desired cfg st.processed items h
  unfold processPage
  rw [hs]
  rfl

/-- C4 counterexample: for one item already in the desired state
(disable mode, item already disabled), a fresh run yields `skipped = 0`,
not `skipped = N = 1` — the filter drops already-in-desired-state items
without counting them. -/
theorem idempotent_rerun_cx :
    (runPages ⟨Mode.disable, none, none, false, 5, 150, 3, 1000, false⟩
        (fun _ => ClickEnv.noCard) initRun
        [[⟨some "id1", "X", "APP", false⟩]]).stats.skipped = 0 ∧
    (0 : Nat) ≠ 1 :=
  ⟨by decide, by decide⟩

/-- **C4 (amended) — Idempotent re-run.**  A fresh run of the engine over
pages whose items are all already in the desired state yields
`toggled = 0`, `skipped = 0` and `failed = 0`: already-in-desired-state
items fail `shouldProcess` and are dropped by the filter without any
counter being incremented (the source counts `skipped` only for dedup
hits at `toggleItem` level and dry-run survivors, not for state-matched
items). -/
theorem idempotent_rerun_amended (cfg : Config) (env : Item → ClickEnv)
    (pages : List (List Item))
    (h : ∀ pg ∈ pages, ∀ it ∈ pg, it.isEnabled = desiredEnabled cfg.mode) :
    (runPages cfg env initRun pages).stats = ⟨0, 0, 0⟩ := by
  have hrun : ∀ pgs, (∀ pg ∈ pgs, ∀ it ∈ pg, it.isEnabled = desiredEnabled cfg.mode) →
      ∀ st, runPages cfg env st pgs = st := by
    intro pgs
    induction pgs with
    | nil =>
        intro _ st
        rfl
    | cons pg rest ih =>
        intro hh st
        unfold runPages
        rw [processPage_of_desired cfg env st pg (hh pg (by simp))]
        exact ih (fun p hp => hh p (by simp [hp])) st
  rw [hrun pages h initRun]
  rfl

/-- Witness for C4 (amended) at a concrete collection already in the
desired state. -/
theorem idempotent_rerun_witness :
    (runPages ⟨Mode.disable, none, none, false, 5, 150, 3, 1000, false⟩
        (fun _ => ClickEnv.card true (fun _ => true) (fun _ => true)) initRun
        [[⟨some "idA", "A", "APP", false⟩, ⟨none, "B", "VIDEO", false⟩]]).stats
      = ⟨0, 0, 0⟩ :=
  idempotent_rerun_amended _ _ _ (by decide)

/-- **C10 — Unverified click counted as success.**  For a selected item
whose card element is found but contains no switch indicator, the single
click is immediately counted as `toggled` (exactly one click, zero
verification polls, `failed` untouched for that item). -/
theorem unverified_click_success (cfg : Config) (env : Item → ClickEnv)
    (st : RunSt) (it : Item) (sw1 sw2 : Nat → Bool)
    (hdry : cfg.dryRun = false)
    (henv : env it = ClickEnv.card false sw1 sw2)
    (hsurv : survivors cfg st.processed [it] = [it]) :
    clickItem (expectChecked cfg) (env it) = ⟨1, 0, 1, 0⟩ ∧
    (processPage cfg env st [it]).stats.toggled = st.stats.toggled + 1 ∧
    (processPage cfg env st [it]).stats.failed = st.stats.failed := by
  have hci : clickItem (expectChecked cfg) (env it) = ⟨1, 0, 1, 0⟩ := by
    rw [henv]
    rfl
  refine ⟨hci, ?_, ?_⟩ <;>
  · unfold processPage
    rw [hsurv, if_neg (by simp), if_neg (by simp [hdry])]
    simp [applyDelta, hci]

/-- Witness for C10 at a concrete configuration, item and environment. -/
theorem unverified_click_success_witness :
    clickItem (expectChecked ⟨Mode.disable, none, none, false, 5, 150, 3, 1000, false⟩)
        ((fun _ => ClickEnv.card false (fun _ => false) (fun _ => false))
          (⟨some "id9", "Game", "APP", true⟩ : Item)) = ⟨1, 0, 1, 0⟩ ∧
    (processPage ⟨Mode.disable, none, none, false, 5, 150, 3, 1000, false⟩
        (fun _ => ClickEnv.card false (fun _ => false) (fun _ => false)) initRun
        [⟨some "id9", "Game", "APP", true⟩]).stats.toggled
      = initRun.stats.toggled + 1 ∧
    (processPage ⟨Mode.disable, none, none, false, 5, 150, 3, 1000, false⟩
        (fun _ => ClickEnv.card false (fun _ => false) (fun _ => false)) initRun
        [⟨some "id9", "Game", "APP", true⟩]).stats.failed
      = initRun.stats.failed :=
  unverified_click_success ⟨Mode.disable, none, none, false, 5, 150, 3, 1000, false⟩
    (fun _ => ClickEnv.card false (fun _ => false) (fun _ => false)) initRun
    ⟨some "id9", "Game", "APP", true⟩ (fun _ => false) (fun _ => false)
    rfl rfl (by decide)

theorem processPage_env_agnostic (cfg : Config) (env env2 : Item → ClickEnv)
    (st st2 : RunSt) (items : List Item)
    (hp : st.processed = st2.processed) (ha : st.actuated = st2.actuated) :
    (processPage cfg env st items).processed
      = (processPage cfg env2 st2 items).processed ∧
    (processPage cfg env st items).actuated
      = (processPage cfg env2 st2 items).actuated := by
  unfold processPage
  rw [hp, ha]
  by_cases he : (survivors cfg st2.processed items).isEmpty
  · rw [if_pos he, if_pos he]
    exact ⟨hp, ha⟩
  · rw [if_neg he, if_neg he]
    by_cases hd : cfg.dryRun
    · rw [if_pos hd, if_pos hd]
      exact ⟨rfl, rfl⟩
    · rw [if_neg hd, if_neg hd]
      exact ⟨rfl, rfl⟩

theorem runPages_env_agnostic (cfg : Config) (env env2 : Item → ClickEnv) :
    ∀ pages (st st2 : RunSt), st.processed = st2.processed →
      st.actuated = st2.actuated →
      (runPages cfg env st pages).processed
        = (runPages cfg env2 st2 pages).processed ∧
      (runPages cfg env st pages).actuated
        = (runPages cfg env2 st2 pages).actuated := by
  intro pages
  induction pages with
  | nil =>
      intro st st2 hp ha
      exact ⟨hp, ha⟩
  | cons pg rest ih =>
      intro st st2 hp ha
      unfold runPages
      rcases processPage_env_agnostic cfg env env2 st st2 pg hp ha with ⟨hp2, ha2⟩
      exact ih _ _ hp2 ha2

theorem processPage_at_most_once (cfg : Config) (env : Item → ClickEnv)
    (st : RunSt) (pg : List Item)
    (hnd : (pg.map dedupKey).Nodup)
    (hinv1 : (st.actuated.map dedupKey).Nodup)
    (hinv2 : ∀ it ∈ st.actuated, dedupKey it ∈ st.processed) :
    ((processPage cfg env st pg).actuated.map dedupKey).Nodup ∧
    ∀ it ∈ (processPage cfg env st pg).actuated,
      dedupKey it ∈ (processPage cfg env st pg).processed := by
  rcases processPage_actuated cfg env st pg with hsame | ⟨hact, -, hproc⟩
  · rw [hsame]
    refine ⟨hinv1, ?_⟩
    intro it hit
    rcases processPage_processed cfg env st pg with hpr | ⟨heq, -⟩
    · rw [hpr]
      exact List.mem_append_left _ (hinv2 it hit)
    · rw [heq]
      exact hinv2 it hit
  · have hsubl : List.Sublist ((survivors cfg st.processed pg).map dedupKey)
        (pg.map dedupKey) :=
      (survivors_sublist cfg st.processed pg).map dedupKey
    have hnd2 : ((survivors cfg st.processed pg).map dedupKey).Nodup :=
      hnd.sublist hsubl
    constructor
    · rw [hact, List.map_append, List.nodup_append]
      refine ⟨hinv1, hnd2, ?_⟩
      intro k hk1 hk2
      rcases List.mem_map.mp hk1 with ⟨it1, hit1, rfl⟩
      rcases List.mem_map.mp hk2 with ⟨it2, hit2, hkeq⟩
      have hmem := hinv2 it1 hit1
      have hnot := (mem_survivors cfg st.processed pg it2 hit2).1
      rw [hkeq] at hnot
      exact hnot hmem
    · intro it hit
      rw [hproc]
      rw [hact] at hit
      rcases List.mem_append.mp hit with hold | hnew
      · exact List.mem_append_left _ (hinv2 it hold)
      · exact List.mem_append_right _ (List.mem_map_of_mem dedupKey hnew)

theorem runPages_at_most_once (cfg : Config) (env : Item → ClickEnv) :
    ∀ pages, (∀ pg ∈ pages, (pg.map dedupKey).Nodup) →
      ∀ st : RunSt, (st.actuated.map dedupKey).Nodup →
        (∀ it ∈ st.actuated, dedupKey it ∈ st.processed) →
        ((runPages cfg env st pages).actuated.map dedupKey).Nodup ∧
        ∀ it ∈ (runPages cfg env st pages).actuated,
          dedupKey it ∈ (runPages cfg env st pages).processed := by
  intro pages
  induction pages with
  | nil =>
      intro _ st h1 h2
      exact ⟨h1, h2⟩
  | cons pg rest ih =>
      intro hnd st h1 h2
      unfold runPages
      rcases processPage_at_most_once cfg env st pg (hnd pg (by simp)) h1 h2
        with ⟨h1b, h2b⟩
      exact ih (fun p hp => hnd p (by simp [hp])) _ h1b h2b

/-- C1 counterexample: when one page read contains two items sharing a
dedup key (here two id-less items with the same title, both passing the
policy filter), `processBatch` actuates that key twice — the filter is
computed against the dedup set from before the page, and only afterwards
are all survivors marked. -/
theorem at_most_once_cx :
    ¬ (((runPages ⟨Mode.disable, none, none, false, 5, 150, 3, 1000, false⟩
          (fun _ => ClickEnv.noCard) initRun
          [[⟨none, "A", "APP", true⟩, ⟨none, "A", "VIDEO", true⟩]]).actuated.map
            dedupKey).count "A" ≤ 1) := by
  decide

/-- **C1 (amended) — At-most-once actuation per run.**  Provided no two
items within a single page read share a dedup key, each dedup key is
actuated at most once across the whole run; every actuated item's key is
in the dedup set (survivors are marked before actuation), and the dedup
set and actuated list are independent of the actuation environment —
so the guarantee holds whatever the actuations do, including throwing. -/
theorem at_most_once_amended (cfg : Config) (env : Item → ClickEnv)
    (pages : List (List Item)) (k : String)
    (hnd : ∀ pg ∈ pages, (pg.map dedupKey).Nodup) :
    (((runPages cfg env initRun pages).actuated.map dedupKey).count k ≤ 1) ∧
    (∀ it ∈ (runPages cfg env initRun pages).actuated,
        dedupKey it ∈ (runPages cfg env initRun pages).processed) ∧
    (∀ env2 : Item → ClickEnv,
        (runPages cfg env2 initRun pages).processed
          = (runPages cfg env initRun pages).processed ∧
        (runPages cfg env2 initRun pages).actuated
          = (runPages cfg env initRun pages).actuated) := by
  rcases runPages_at_most_once cfg env pages hnd initRun (by simp [initRun])
      (by simp [initRun]) with ⟨hn, hm⟩
  refine ⟨List.nodup_iff_count_le_one.mp hn k, hm, ?_⟩
  intro env2
  exact runPages_env_agnostic cfg env2 env pages initRun initRun rfl rfl

/-- Witness for C1 (amended): the same item reappearing on a later page
is caught by the dedup set and actuated only once. -/
theorem at_most_once_witness :
    (((runPages ⟨Mode.disable, none, none, false, 5, 150, 3, 1000, false⟩
        (fun _ => ClickEnv.noCard) initRun
        [[⟨none, "A", "APP", true⟩], [⟨none, "A", "APP", true⟩]]).actuated.map
          dedupKey).count "A" ≤ 1) :=
  (at_most_once_amended ⟨Mode.disable, none, none, false, 5, 150, 3, 1000, false⟩
    (fun _ => ClickEnv.noCard)
    [[⟨none, "A", "APP", true⟩], [⟨none, "A", "APP", true⟩]] "A" (by decide)).1

/-- The outcome of the retry loop of `Engine.toggleItem` (API variant):
counter increments plus the list of backoff delays slept, for a given
per-attempt success predicate. -/
structure RetryResult where
  toggled : Nat
  retried : Nat
  failed : Nat
  delays : List Nat
deriving DecidableEq, Repr

/-- The `for (attempt = 0; attempt <= maxRetries; attempt++)` loop of
`Engine.toggleItem` (the API-batch variant of `Engine.processBatch` has
the same loop around `toggleViaApi`): a successful attempt increments
`toggled` and returns; a failing attempt below the retry ceiling records
a backoff delay of `retryBackoffMs * 2 ^ attempt` and increments
`retried`; a failing attempt at the ceiling increments `failed`.  The
fuel argument only bounds the recursion. -/
def retryFrom (maxRetries backoff : Nat) (ok : Nat → Bool) :
    Nat → Nat → RetryResult
  | _, 0 => ⟨0, 0, 0, []⟩
  | a, fuel + 1 =>
      if ok a then ⟨1, 0, 0, []⟩
      else if a < maxRetries then
        let r := retryFrom maxRetries backoff ok (a + 1) fuel
        ⟨r.toggled, r.retried + 1, r.failed, backoff * 2 ^ a :: r.delays⟩
      else ⟨0, 0, 1, []⟩

/-- The whole retry loop of `Engine.toggleItem`, starting at attempt 0
with enough fuel for its `maxRetries + 1` iterations. -/
def toggleItemRetry (maxRetries backoff : Nat) (ok : Nat → Bool) : RetryResult :=
  retryFrom maxRetries backoff ok 0 (maxRetries + 1)

theorem retryFrom_all_fail (maxRetries backoff : Nat) (ok : Nat → Bool)
    (hok : ∀ j, j ≤ maxRetries → ok j = false) :
    ∀ fuel a, a ≤ maxRetries → a + fuel = maxRetries + 1 →
      retryFrom maxRetries backoff ok a fuel =
        ⟨0, maxRetries - a, 1,
          (List.range' a (maxRetries - a)).map (fun j => backoff * 2 ^ j)⟩ := by
  intro fuel
  induction fuel with
  | zero =>
      intro a ha hsum
      omega
  | succ n ih =>
      intro a ha hsum
      unfold retryFrom
      rw [if_neg (by simp [hok a ha])]
      by_cases hlt : a < maxRetries
      · rw [if_pos hlt, ih (a + 1) (by omega) (by omega)]
        have hsub : maxRetries - a = (maxRetries - (a + 1)) + 1 := by omega
        rw [hsub, List.range'_succ]
        simp
      · have haeq : a = maxRetries := by omega
        rw [if_neg hlt]
        have hz : maxRetries - a = 0 := by omega
        rw [hz]
        simp

/-- **C7 — Backoff monotonicity and retry accounting.**  When every
attempt fails (a transient remote error on every try), the retry loop of
`Engine.toggleItem` records exactly the delays
`retryBackoffMs * 2 ^ attempt` for attempts `0 .. maxRetries - 1`, which
are pairwise non-decreasing; `retried` is incremented exactly
`maxRetries` times, `failed` exactly once, and `toggled` not at all. -/
theorem backoff_monotone_retries (maxRetries backoff : Nat) (ok : Nat → Bool)
    (hok : ∀ j, j ≤ maxRetries → ok j = false) :
    toggleItemRetry maxRetries backoff ok =
      ⟨0, maxRetries, 1, (List.range maxRetries).map (fun j => backoff * 2 ^ j)⟩ ∧
    (toggleItemRetry maxRetries backoff ok).delays.Pairwise (· ≤ ·) ∧
    (toggleItemRetry maxRetries backoff ok).retried = maxRetries ∧
    (toggleItemRetry maxRetries backoff ok).failed = 1 ∧
    (toggleItemRetry maxRetries backoff ok).toggled = 0 := by
  have heq : toggleItemRetry maxRetries backoff ok =
      ⟨0, maxRetries, 1, (List.range maxRetries).map (fun j => backoff * 2 ^ j)⟩ := by
    unfold toggleItemRetry
    rw [retryFrom_all_fail maxRetries backoff ok hok (maxRetries + 1) 0
      (by omega) (by omega)]
    rw [List.range_eq_range']
    simp
  refine ⟨heq, ?_, by rw [heq], by rw [heq], by rw [heq]⟩
  rw [heq]
  apply List.Pairwise.map (fun j => backoff * 2 ^ j)
      (fun a b hab => Nat.mul_le_mul (Nat.le_refl backoff)
        (Nat.pow_le_pow_right (by omega) (Nat.le_of_lt hab)))
  exact List.pairwise_lt_range maxRetries

/-- Witness for C7 at `maxRetries = 3`, `retryBackoffMs = 1000`, all
attempts failing: delays 1000, 2000, 4000 and `retried = 3`. -/
theorem backoff_monotone_retries_witness :
    toggleItemRetry 3 1000 (fun _ => false) =
      ⟨0, 3, 1, (List.range 3).map (fun j => 1000 * 2 ^ j)⟩ ∧
    (toggleItemRetry 3 1000 (fun _ => false)).delays = [1000, 2000, 4000] :=
  ⟨(backoff_monotone_retries 3 1000 (fun _ => false) (fun _ _ => rfl)).1,
   by decide⟩

/-- Run phases of the `State` controller object (`_state`). -/
inductive Phase where
  | idle : Phase
  | running : Phase
  | paused : Phase
  | done : Phase
deriving DecidableEq, Repr

/-- The controller state: current phase plus whether a pause promise
exists that has not yet been resolved.  Callers blocked in `checkPause`
wait on exactly that promise, so they are released when it is resolved. -/
structure Ctrl where
  phase : Phase
  pauseUnresolved : Bool
deriving DecidableEq, Repr

/-- `State.start()`: sets `_state = 'running'` unconditionally (no guard
in the source). -/
def startOp (c : Ctrl) : Ctrl :=
  { c with phase := Phase.running }

/-- `State.pause()`: no-op unless running; otherwise moves to paused and
creates a fresh unresolved pause promise. -/
def pauseOp (c : Ctrl) : Ctrl :=
  if c.phase = Phase.running then ⟨Phase.paused, true⟩ else c

/-- `State.resume()`: no-op unless paused; otherwise moves to running,
resolves the pause promise and clears it. -/
def resumeOp (c : Ctrl) : Ctrl :=
  if c.phase = Phase.paused then ⟨Phase.running, false⟩ else c

/-- `State.stop()`: moves any state to done and resolves the pause
promise if one exists. -/
def stopOp (_ : Ctrl) : Ctrl :=
  ⟨Phase.done, false⟩

/-- A `checkPause()` caller blocks exactly when the state is paused and
the pause promise is unresolved. -/
def blocksInCheckPause (c : Ctrl) : Prop :=
  c.phase = Phase.paused ∧ c.pauseUnresolved = true

/-- The four externally invokable controller operations. -/
inductive Op where
  | opStart : Op
  | opPause : Op
  | opResume : Op
  | opStop : Op
deriving DecidableEq, Repr

def applyOp : Op → Ctrl → Ctrl
  | Op.opStart => startOp
  | Op.opPause => pauseOp
  | Op.opResume => resumeOp
  | Op.opStop => stopOp

/-- The transition diagram of the claim: self-loops (no-ops),
idle → running, running ⇄ paused, and any state → done. -/
def allowedEdge (p q : Phase) : Bool :=
  if p = q then true
  else
    match p, q with
    | Phase.idle, Phase.running => true
    | Phase.running, Phase.paused => true
    | Phase.paused, Phase.running => true
    | _, Phase.done => true
    | _, _ => false

/-- C8 counterexample: `State.start()` has no idle guard — invoking it in
the terminal `done` state (here immediately after `stop()`) moves the
state back to `running`, so `start` is not a state-preserving no-op
outside `idle` and the machine can leave `done`, which the claimed
diagram forbids. -/
theorem run_state_machine_cx :
    (applyOp Op.opStart (applyOp Op.opStop ⟨Phase.idle, false⟩)).phase
        = Phase.running ∧
    (applyOp Op.opStop ⟨Phase.idle, false⟩).phase = Phase.done ∧
    allowedEdge Phase.done Phase.running = false := by
  decide

/-- **C8 (amended) — Run-state machine.**  `pause()` changes state only
when running and `resume()` only when paused (each a state-preserving
no-op otherwise); `stop()` moves any state to `done` and resolves the
pause promise, so no caller is left blocked in `checkPause` after a stop
(including a stop issued during pause); `start()` unconditionally sets
`running` — the source has no idle guard — so the claimed diagram holds
for every operation provided `start` is only invoked in `idle` (its only
call site in `main()`). -/
theorem run_state_machine_amended (c : Ctrl) (op : Op)
    (hstart : op = Op.opStart → c.phase = Phase.idle) :
    allowedEdge c.phase ((applyOp op c).phase) = true ∧
    (c.phase ≠ Phase.running → pauseOp c = c) ∧
    (c.phase = Phase.running → (pauseOp c).phase = Phase.paused) ∧
    (c.phase ≠ Phase.paused → resumeOp c = c) ∧
    (c.phase = Phase.paused → (resumeOp c).phase = Phase.running) ∧
    ((stopOp c).phase = Phase.done ∧ ¬ blocksInCheckPause (stopOp c)) ∧
    (c.phase = Phase.idle → (startOp c).phase = Phase.running) := by
  rcases c with ⟨p, u⟩
  cases op <;> cases p <;>
    simp_all [applyOp, allowedEdge, startOp, pauseOp, resumeOp, stopOp,
      blocksInCheckPause]

/-- Witness for C8 (amended): a stop issued while paused with a live
pause promise reaches `done` and leaves no caller blocked. -/
theorem run_state_machine_witness :
    (stopOp ⟨Phase.paused, true⟩).phase = Phase.done ∧
    ¬ blocksInCheckPause (stopOp ⟨Phase.paused, true⟩) :=
  (run_state_machine_amended ⟨Phase.paused, true⟩ Op.opStop
    (fun h => nomatch h)).2.2.2.2.2.1

/-- One pagination snapshot as an iteration of `main()` observes it: the
page's item listing plus the flags of `ItemSource.getPagination()`. -/
structure Page where
  items : List Item
  isLastPage : Bool
  isLoading : Bool
  hasLoadMore : Bool
deriving DecidableEq, Repr

/-- Events of the `main()` loop: `listItems` for each
`ItemSource.getItems()` page listing consumed for processing (including
the final straggler pass), `procBatch` for each `Engine.processBatch`
call, `loadNext` for a `loadMore()` invocation, `waitItems` for the
`waitForNewItems` wait, `sleepPage` for the inter-iteration sleeps. -/
inductive MEvent where
  | listItems : MEvent
  | procBatch : MEvent
  | loadNext : MEvent
  | waitItems : MEvent
  | sleepPage : MEvent
deriving DecidableEq, Repr

/-- The `main()` loop over successive pagination snapshots (no pause or
stop issued): each iteration lists and processes the current page, then
reads pagination; `isLastPage` (or a missing load-more control) breaks
the loop and the final straggler pass lists and processes once more;
`isLoading` sleeps and re-enters the loop; otherwise the loop invokes
`loadMore()`, waits for new items, sleeps, and re-enters.  An exhausted
snapshot list models the run being cut off externally. -/
def mainTrace : List Page → List MEvent
  | [] => []
  | p :: rest =>
      MEvent.listItems :: MEvent.procBatch ::
        (if p.isLastPage then [MEvent.listItems, MEvent.procBatch]
         else if p.hasLoadMore = false then [MEvent.listItems, MEvent.procBatch]
         else if p.isLoading then MEvent.sleepPage :: mainTrace rest
         else MEvent.loadNext :: MEvent.waitItems :: MEvent.sleepPage ::
                mainTrace rest)

/-- **C9 — Pagination termination count.**  For a run in which the third
pagination snapshot reports `isLastPage = true` (the first two loading
normally, no pause or stop), the main loop performs exactly 3 item
listings, then the final straggler pass performs one more, for 4
`listCurrentItems` invocations in total (the trace is computed
explicitly; the polling inside `waitForNewItems` is the separate
`waitItems` event, not an item-listing cycle). -/
theorem pagination_termination (p1 p2 p3 : Page)
    (h1 : p1.isLastPage = false) (h1m : p1.hasLoadMore = true)
    (h1l : p1.isLoading = false)
    (h2 : p2.isLastPage = false) (h2m : p2.hasLoadMore = true)
    (h2l : p2.isLoading = false)
    (h3 : p3.isLastPage = true) :
    (mainTrace [p1, p2, p3]).count MEvent.listItems = 4 ∧
    mainTrace [p1, p2, p3] =
      [MEvent.listItems, MEvent.procBatch, MEvent.loadNext, MEvent.waitItems,
       MEvent.sleepPage,
       MEvent.listItems, MEvent.procBatch, MEvent.loadNext, MEvent.waitItems,
       MEvent.sleepPage,
       MEvent.listItems, MEvent.procBatch, MEvent.listItems, MEvent.procBatch] := by
  have htrace : mainTrace [p1, p2, p3] =
      [MEvent.listItems, MEvent.procBatch, MEvent.loadNext, MEvent.waitItems,
       MEvent.sleepPage,
       MEvent.listItems, MEvent.procBatch, MEvent.loadNext, MEvent.waitItems,
       MEvent.sleepPage,
       MEvent.listItems, MEvent.procBatch, MEvent.listItems, MEvent.procBatch] := by
    simp [mainTrace, h1, h1m, h1l, h2, h2m, h2l, h3]
  refine ⟨?_, htrace⟩
  rw [htrace]
  decide

/-- Witness for C9 at a concrete three-snapshot run. -/
theorem pagination_termination_witness :
    (mainTrace [⟨[], false, false, true⟩, ⟨[], false, false, true⟩,
        ⟨[], true, false, false⟩]).count MEvent.listItems = 4 :=
  (pagination_termination ⟨[], false, false, true⟩ ⟨[], false, false, true⟩
    ⟨[], true, false, false⟩ rfl rfl rfl rfl rfl rfl rfl).1

/-- Events of one non-dry `Engine.processBatch` call (click variant):
the pause gate awaited before a batch, the click starting each item's
actuation, the `Promise.all` barrier ending a batch, and the inter-batch
sleep. -/
inductive BEvent where
  | pauseGate : BEvent
  | click (it : Item) : BEvent
  | barrier : BEvent
  | interSleep (ms : Nat) : BEvent
deriving DecidableEq, Repr

/-- The chunks taken by the loop
`for (i = 0; i < toProcess.length; i += clickConcurrency)` of
`Engine.processBatch`: consecutive `slice(i, i + clickConcurrency)`
pieces.  The fuel argument only bounds the recursion. -/
def chunksOfAux (c : Nat) : Nat → List Item → List (List Item)
  | 0, _ => []
  | _ + 1, [] => []
  | fuel + 1, a :: rest =>
      (a :: rest).take c ::
        (if c < (a :: rest).length then chunksOfAux c fuel ((a :: rest).drop c)
         else [])

def chunksOf (c : Nat) (l : List Item) : List (List Item) :=
  chunksOfAux c (l.length + 1) l

/-- The event trace of the chunking loop of `Engine.processBatch`: per
chunk, the awaited pause gate, the simultaneous clicks, the
`Promise.all` barrier, and — exactly when `i + clickConcurrency <
toProcess.length` — the inter-chunk sleep of `clickDelayMs`. -/
def chunkTraceAux (c delay : Nat) : Nat → List Item → List BEvent
  | 0, _ => []
  | _ + 1, [] => []
  | fuel + 1, a :: rest =>
      BEvent.pauseGate ::
        (((a :: rest).take c).map BEvent.click ++ [BEvent.barrier] ++
          (if c < (a :: rest).length then
            BEvent.interSleep delay ::
              chunkTraceAux c delay fuel ((a :: rest).drop c)
           else []))

def chunkTrace (c delay : Nat) (l : List Item) : List BEvent :=
  chunkTraceAux c delay (l.length + 1) l

/-- The full `Engine.processBatch` event trace (click variant): empty
when nothing survives the dedup-and-policy filter or in dry run, else
the chunking loop over the survivors. -/
def processBatchTrace (cfg : Config) (processed : List String)
    (items : List Item) : List BEvent :=
  let toProcess := survivors cfg processed items
  if toProcess.isEmpty then []
  else if cfg.dryRun then []
  else chunkTrace cfg.clickConcurrency cfg.clickDelayMs toProcess

/-- The batch schedule as the claim words it: before each batch the pause
gate is awaited, then all the batch's actuations start, then the barrier
awaits them all; the inter-batch sleep occurs between consecutive batches
only, never after the last. -/
def specTrace (delay : Nat) : List (List Item) → List BEvent
  | [] => []
  | [b] => BEvent.pauseGate :: (b.map BEvent.click ++ [BEvent.barrier])
  | b :: b2 :: rest =>
      BEvent.pauseGate ::
        (b.map BEvent.click ++ [BEvent.barrier] ++
          (BEvent.interSleep delay :: specTrace delay (b2 :: rest)))

theorem chunksOfAux_flatten (c : Nat) (hc : 0 < c) :
    ∀ fuel (l : List Item), l.length < fuel →
      (chunksOfAux c fuel l).flatten = l := by
  intro fuel
  induction fuel with
  | zero =>
      intro l hl
      omega
  | succ n ih =>
      intro l hl
      cases l with
      | nil => rfl
      | cons a rest =>
          unfold chunksOfAux
          by_cases hlt : c < (a :: rest).length
          · rw [if_pos hlt]
            have hdrop : ((a :: rest).drop c).length < n := by
              rw [List.length_drop]
              simp only [List.length_cons] at hl hlt ⊢
              omega
            rw [List.flatten_cons, ih _ hdrop, List.take_append_drop]
          · rw [if_neg hlt]
            have hle : (a :: rest).length ≤ c := Nat.le_of_not_lt hlt
            rw [List.flatten_cons, List.take_of_length_le hle]
            simp

theorem chunksOfAux_ne_nil (c : Nat) (l : List Item) (fuel : Nat)
    (hl : l ≠ []) (hf : 0 < fuel) : chunksOfAux c fuel l ≠ [] := by
  cases fuel with
  | zero => omega
  | succ n =>
      cases l with
      | nil => exact absurd rfl hl
      | cons a rest =>
          unfold chunksOfAux
          exact List.cons_ne_nil _ _

theorem chunksOfAux_sizes (c : Nat) (hc : 0 < c) :
    ∀ fuel (l : List Item), l.length < fuel →
      ∀ b ∈ chunksOfAux c fuel l, b ≠ [] ∧ b.length ≤ c := by
  intro fuel
  induction fuel with
  | zero =>
      intro l hl
      omega
  | succ n ih =>
      intro l hl b hb
      cases l with
      | nil => exact absurd hb (List.not_mem_nil b)
      | cons a rest =>
          unfold chunksOfAux at hb
          by_cases hlt : c < (a :: rest).length
          · rw [if_pos hlt] at hb
            rcases List.mem_cons.mp hb with hb | hb
            · subst hb
              constructor
              · have hlen : ((a :: rest).take c).length = c := by
                  rw [List.length_take]
                  omega
                intro hnil
                rw [hnil] at hlen
                rw [List.length_nil] at hlen
                omega
              · rw [List.length_take]
                omega
            · have hdrop : ((a :: rest).drop c).length < n := by
                rw [List.length_drop]
                simp only [List.length_cons] at hl hlt ⊢
                omega
              exact ih _ hdrop b hb
          · rw [if_neg hlt] at hb
            rcases List.mem_cons.mp hb with hb | hb
            · subst hb
              have hle : (a :: rest).length ≤ c := Nat.le_of_not_lt hlt
              rw [List.take_of_length_le hle]
              exact ⟨List.cons_ne_nil a rest, hle⟩
            · exact absurd hb (List.not_mem_nil b)

theorem chunksOfAux_dropLast (c : Nat) (hc : 0 < c) :
    ∀ fuel (l : List Item), l.length < fuel →
      ∀ b ∈ (chunksOfAux c fuel l).dropLast, b.length = c := by
  intro fuel
  induction fuel with
  | zero =>
      intro l hl
      omega
  | succ n ih =>
      intro l hl b hb
      cases l with
      | nil => exact absurd hb (List.not_mem_nil b)
      | cons a rest =>
          unfold chunksOfAux at hb
          by_cases hlt : c < (a :: rest).length
          · rw [if_pos hlt] at hb
            have hdrop : ((a :: rest).drop c).length < n := by
              rw [List.length_drop]
              simp only [List.length_cons] at hl hlt ⊢
              omega
            have hdnil : (a :: rest).drop c ≠ [] := by
              intro hnil
              have hlen := congrArg List.length hnil
              rw [List.length_drop, List.length_nil] at hlen
              simp only [List.length_cons] at hlen hlt
              omega
            have hcne : chunksOfAux c n ((a :: rest).drop c) ≠ [] :=
              chunksOfAux_ne_nil c _ n hdnil (by omega)
            rw [List.dropLast_cons_of_ne_nil hcne] at hb
            rcases List.mem_cons.mp hb with hb | hb
            · subst hb
              rw [List.length_take]
              omega
            · exact ih _ hdrop b hb
          · rw [if_neg hlt] at hb
            simp at hb

theorem chunkTraceAux_eq_spec (c delay : Nat) (hc : 0 < c) :
    ∀ fuel (l : List Item), l.length < fuel →
      chunkTraceAux c delay fuel l = specTrace delay (chunksOfAux c fuel l) := by
  intro fuel
  induction fuel with
  | zero =>
      intro l hl
      omega
  | succ n ih =>
      intro l hl
      cases l with
      | nil => rfl
      | cons a rest =>
          unfold chunkTraceAux chunksOfAux
          by_cases hlt : c < (a :: rest).length
          · rw [if_pos hlt, if_pos hlt]
            have hdroplen : ((a :: rest).drop c).length < n := by
              rw [List.length_drop]
              simp only [List.length_cons] at hl hlt ⊢
              omega
            have hdnil : (a :: rest).drop c ≠ [] := by
              intro hnil
              have hlen := congrArg List.length hnil
              rw [List.length_drop, List.length_nil] at hlen
              simp only [List.length_cons] at hlen hlt
              omega
            rcases hch : chunksOfAux c n ((a :: rest).drop c) with _ | ⟨b2, rest2⟩
            · exact absurd hch (chunksOfAux_ne_nil c _ n hdnil (by omega))
            · rw [ih _ hdroplen, hch]
              rfl
          · rw [if_neg hlt, if_neg hlt]
            simp [specTrace]

/-- **C5 — Batch structure and barrier.**  For a non-dry-run page,
`processBatch` partitions the survivors into consecutive batches of size
`clickConcurrency` (every non-last batch full, the last non-empty and no
larger), and its event trace is exactly: per batch, the awaited pause
gate, then the batch's clicks, then the barrier awaiting all of them —
so no click of batch N+1 precedes the barrier of batch N — with the
`clickDelayMs` sleep occurring between consecutive batches only, never
after the last. -/
theorem batch_structure (cfg : Config) (processed : List String)
    (items : List Item) (hc : 0 < cfg.clickConcurrency)
    (hdry : cfg.dryRun = false) :
    (chunksOf cfg.clickConcurrency (survivors cfg processed items)).flatten
        = survivors cfg processed items ∧
    (∀ b ∈ (chunksOf cfg.clickConcurrency
        (survivors cfg processed items)).dropLast,
      b.length = cfg.clickConcurrency) ∧
    (∀ b ∈ chunksOf cfg.clickConcurrency (survivors cfg processed items),
      b ≠ [] ∧ b.length ≤ cfg.clickConcurrency) ∧
    processBatchTrace cfg processed items
      = specTrace cfg.clickDelayMs
          (chunksOf cfg.clickConcurrency (survivors cfg processed items)) := by
  refine ⟨chunksOfAux_flatten _ hc _ _ (by omega),
    chunksOfAux_dropLast _ hc _ _ (by omega),
    chunksOfAux_sizes _ hc _ _ (by omega), ?_⟩
  unfold processBatchTrace
  by_cases he : (survivors cfg processed items).isEmpty
  · rw [if_pos he]
    have hnil : survivors cfg processed items = [] := List.isEmpty_iff.mp he
    rw [hnil]
    rfl
  · rw [if_neg he, if_neg (by simp [hdry])]
    exact chunkTraceAux_eq_spec _ _ hc _ _ (by omega)

/-- Witness for C5: three survivors, concurrency 2 — two batches, sleep
between them only. -/
theorem batch_structure_witness :
    processBatchTrace ⟨Mode.disable, none, none, false, 2, 150, 3, 1000, false⟩ []
        [⟨some "i1", "A", "APP", true⟩, ⟨some "i2", "B", "APP", true⟩,
         ⟨some "i3", "C", "APP", true⟩]
      = specTrace
          (Config.clickDelayMs ⟨Mode.disable, none, none, false, 2, 150, 3, 1000, false⟩)
          (chunksOf
            (Config.clickConcurrency ⟨Mode.disable, none, none, false, 2, 150, 3, 1000, false⟩)
            (survivors ⟨Mode.disable, none, none, false, 2, 150, 3, 1000, false⟩ []
              [⟨some "i1", "A", "APP", true⟩, ⟨some "i2", "B", "APP", true⟩,
               ⟨some "i3", "C", "APP", true⟩])) :=
  (batch_structure ⟨Mode.disable, none, none, false, 2, 150, 3, 1000, false⟩ []
    [⟨some "i1", "A", "APP", true⟩, ⟨some "i2", "B", "APP", true⟩,
     ⟨some "i3", "C", "APP", true⟩] (by decide) rfl).2.2.2

end AKCD
